import Mathlib

/-!
Verification of the `tll-array` crate: fixed-length arrays whose length is a
type-level ternary natural number.

The embedding mirrors the source modules:

* `TNat` embeds the type-level ternary naturals of the external `tll::ternary`
  module (`Term`, `Zero<N>`, `One<N>`, `Two<N>`), with `reify` giving their
  runtime value, exactly as the storage module documents (8 = 22 in ternary is
  `Two<Two<Term>>`, and `reify (two n) = 3 * reify n + 2`).
* `Reify` embeds `src/storage.rs`: the `#[repr(C)]` node structs
  `TermNode`, `ZeroNode<T, N>`, `OneNode<T, N>`, `TwoNode<T, N>`.  Each node
  stores its 0/1/2 direct elements followed by `next: [N; 3]`, three copies of
  the sub-layout.  `Reify.flatten` lists the elements in declaration (memory)
  order; `sizeofReify szT L` is the `repr(C)` byte size of the node tree when
  `sizeof(T) = szT` (field offsets are cumulative with no padding, since every
  field's size is a multiple of `T`'s alignment).
* The `Array` operations of `src/array.rs` act on the raw memory of the
  container, which `Deref` exposes as a contiguous slice of `L::reify()`
  elements.  We model that memory as a `List T` and `ptr::read` of a sub-array
  or element at a given element offset as an `Option`-returning read that is
  `none` when the read goes out of bounds of the container (undefined
  behavior in the Rust source).
-/

namespace TllArray

/-- Type-level ternary naturals from `tll::ternary`: `Term` is the terminal
digit, and `Zero`/`One`/`Two` prepend a least-significant base-3 digit. -/
inductive TNat : Type
  | term : TNat
  | zero (n : TNat) : TNat
  | one (n : TNat) : TNat
  | two (n : TNat) : TNat
deriving DecidableEq

/-- Runtime value of a type-level ternary natural (`Nat::reify()` in the
source): the head constructor is the least significant base-3 digit. -/
def TNat.reify : TNat → Nat
  | TNat.term => 0
  | TNat.zero n => 3 * n.reify
  | TNat.one n => 3 * n.reify + 1
  | TNat.two n => 3 * n.reify + 2

/-- Modelled from the spec: the `Triple` operator of the external
`tll::ternary` numeral module ("triple-decompose" collaborator), which maps a
length to three times its value, keeping `Term` canonical.  It appears in the
source only through the type equality `Pred<One<L>> = Triple<L>` in the
`ArraySplit` impl for `One<L>`. -/
def TNat.triple : TNat → TNat
  | TNat.term => TNat.term
  | TNat.zero n => TNat.zero (TNat.zero n)
  | TNat.one n => TNat.zero (TNat.one n)
  | TNat.two n => TNat.zero (TNat.two n)

/-- Modelled from the spec: the `Pred` operator of the external `tll::ternary`
numeral module ("predecessor, defined for length ≥ 1").  The three digit
equations are exactly the type equalities forced by the `ArraySplit` impl
signatures in `src/array.rs`: `Pred<Zero<L>> = Two<Pred<L>>`,
`Pred<One<L>> = Triple<L>`, `Pred<Two<L>> = One<L>`.  `pred term` has no Rust
counterpart (`NatPred` is not implemented for `Term`). -/
def TNat.pred : TNat → TNat
  | TNat.term => TNat.term
  | TNat.zero n => TNat.two n.pred
  | TNat.one n => n.triple
  | TNat.two n => TNat.one n

theorem TNat.reify_triple (n : TNat) : n.triple.reify = 3 * n.reify := by
  cases n <;> simp [TNat.triple, TNat.reify]

theorem TNat.reify_pred (n : TNat) (h : 1 ≤ n.reify) :
    n.pred.reify = n.reify - 1 := by
  induction n with
  | term => simp [TNat.reify] at h
  | zero m ih =>
    have hm : 1 ≤ m.reify := by
      simp only [TNat.reify] at h; omega
    simp only [TNat.pred, TNat.reify, ih hm]
    omega
  | one m _ => simp [TNat.pred, TNat.reify, TNat.reify_triple]
  | two m _ => simp [TNat.pred, TNat.reify]

/-- The storage tree of `src/storage.rs` for a given type-level length: the
`Reify<L, T>` type operator output.  `termNode` is `TermNode<T>` (no storage);
`zeroNode`/`oneNode`/`twoNode` are `ZeroNode<T, N>`/`OneNode<T, N>`/
`TwoNode<T, N>` with 0/1/2 direct element fields followed by `next: [N; 3]`. -/
inductive Reify (T : Type) : TNat → Type
  | termNode : Reify T TNat.term
  | zeroNode {n : TNat} (next0 next1 next2 : Reify T n) : Reify T (TNat.zero n)
  | oneNode {n : TNat} (first : T) (next0 next1 next2 : Reify T n) :
      Reify T (TNat.one n)
  | twoNode {n : TNat} (first second : T) (next0 next1 next2 : Reify T n) :
      Reify T (TNat.two n)

/-- The elements of a storage tree in `repr(C)` memory order: the direct
element fields first, then the three `next` copies in index order. -/
def Reify.flatten {T : Type} : {L : TNat} → Reify T L → List T
  | _, Reify.termNode => []
  | _, Reify.zeroNode a b c => a.flatten ++ b.flatten ++ c.flatten
  | _, Reify.oneNode x a b c => x :: (a.flatten ++ b.flatten ++ c.flatten)
  | _, Reify.twoNode x y a b c =>
      x :: y :: (a.flatten ++ b.flatten ++ c.flatten)

theorem Reify.length_flatten {T : Type} {L : TNat} (s : Reify T L) :
    s.flatten.length = L.reify := by
  induction s with
  | termNode => simp [Reify.flatten, TNat.reify]
  | zeroNode a b c iha ihb ihc =>
    simp [Reify.flatten, TNat.reify, iha, ihb, ihc]; omega
  | oneNode x a b c iha ihb ihc =>
    simp [Reify.flatten, TNat.reify, iha, ihb, ihc]; omega
  | twoNode x y a b c iha ihb ihc =>
    simp [Reify.flatten, TNat.reify, iha, ihb, ihc]; omega

/-- Byte size of the `repr(C)` storage tree for element size `szT`:
`TermNode` is zero-sized, each other node lays out its direct `T` fields
followed by `[N; 3]` with no padding (each field's size is a multiple of
`T`'s alignment, so `repr(C)` inserts none). -/
def sizeofReify (szT : Nat) : TNat → Nat
  | TNat.term => 0
  | TNat.zero n => 3 * sizeofReify szT n
  | TNat.one n => szT + 3 * sizeofReify szT n
  | TNat.two n => 2 * szT + 3 * sizeofReify szT n

theorem sizeofReify_eq (szT : Nat) (L : TNat) :
    sizeofReify szT L = L.reify * szT := by
  induction L with
  | term => simp [sizeofReify, TNat.reify]
  | zero n ih => simp [sizeofReify, TNat.reify, ih]; ring
  | one n ih => simp [sizeofReify, TNat.reify, ih]; ring
  | two n ih => simp [sizeofReify, TNat.reify, ih]; ring

/-- The slice view produced by `Deref for Array<L, T>`:
`slice::from_raw_parts(self as *const T, L::reify())`, i.e. the first
`L::reify()` elements of the container's memory (its flattened storage). -/
def derefSlice {T : Type} {L : TNat} (a : Reify T L) : List T :=
  a.flatten.take L.reify

/-- Bounds-checked slice indexing (`slice[i]` on the deref view): the stored
element for `i` in range, `none` for the out-of-range panic. -/
def sliceIndex {T : Type} (xs : List T) (i : Nat) : Option T :=
  xs[i]?

/-- Models `ptr::read` of a single `T` at element offset `i` in a container's
memory: `none` when the read is out of bounds (undefined behavior). -/
def readElem {T : Type} (mem : List T) (i : Nat) : Option T :=
  if h : i < mem.length then some (mem.get ⟨i, h⟩) else none

/-- Models `ptr::read` of an `Array<L', T>` value (`len = L'::reify()`
elements) at element offset `off` in a container's memory: `none` when any
part of the read is out of bounds (undefined behavior). -/
def readArrayAt {T : Type} (mem : List T) (off len : Nat) : Option (List T) :=
  if off + len ≤ mem.length then some ((mem.drop off).take len) else none

/-- `ArraySplit::split_first` from `src/array.rs`, by leading-digit shape.
Each branch transcribes the corresponding impl: the head is
`ptr::read(base as *const T)` (element offset 0), and the tail is
`ptr::read((base as *const Array<TailTy, T>).offset(1))`, a read of
`TailTy::reify()` elements whose offset is one whole `TailTy`, i.e.
`TailTy::reify()` elements (the cast happens before `.offset(1)`).  The tail
types are `Two<Pred<L>>` for `Zero<L>`, `Triple<L>` for `One<L>`, and
`One<L>` for `Two<L>`.  There is no impl for `Term` (excluded by `NatPred`). -/
def splitFirst {T : Type} : TNat → List T → Option (T × List T)
  | TNat.zero l, mem =>
    (readElem mem 0).bind fun head =>
      (readArrayAt mem (TNat.two l.pred).reify (TNat.two l.pred).reify).map
        fun tail => (head, tail)
  | TNat.one l, mem =>
    (readElem mem 0).bind fun head =>
      (readArrayAt mem l.triple.reify l.triple.reify).map
        fun tail => (head, tail)
  | TNat.two l, mem =>
    (readElem mem 0).bind fun head =>
      (readArrayAt mem (TNat.one l).reify (TNat.one l).reify).map
        fun tail => (head, tail)
  | TNat.term, _ => none

/-- `ArraySplit::split_last` from `src/array.rs`, by leading-digit shape.
Each branch transcribes the corresponding impl: the init is
`ptr::read(base as *const Array<TailTy, T>)` (a read of `TailTy::reify()`
elements at offset 0), the last element is
`ptr::read((base as *const T).offset(L::reify() - 1))`, and the pair is
returned as `(last, init)`. -/
def splitLast {T : Type} : TNat → List T → Option (T × List T)
  | TNat.zero l, mem =>
    (readArrayAt mem 0 (TNat.two l.pred).reify).bind fun init =>
      (readElem mem ((TNat.zero l).reify - 1)).map fun last => (last, init)
  | TNat.one l, mem =>
    (readArrayAt mem 0 l.triple.reify).bind fun init =>
      (readElem mem ((TNat.one l).reify - 1)).map fun last => (last, init)
  | TNat.two l, mem =>
    (readArrayAt mem 0 (TNat.one l).reify).bind fun init =>
      (readElem mem ((TNat.two l).reify - 1)).map fun last => (last, init)
  | TNat.term, _ => none

/-- Repeatedly calling `Array::split_first`, collecting the heads in order.
After a split the remainder has type `Array<Pred<L>, T>`, so the next call
uses shape `L.pred`. -/
def splitIterate {T : Type} : Nat → TNat → List T → Option (List T)
  | 0, _, _ => some []
  | k + 1, L, mem =>
    (splitFirst L mem).bind fun p =>
      (splitIterate k L.pred p.2).map fun rest => p.1 :: rest

/-- The `Guillotine` enum from `src/guillotine.rs`: an `Option`-like
alive/relinquished tag for the iterator's owned block. -/
inductive Guillotine (T : Type) : Type
  | Alive (x : T) : Guillotine T
  | Dead : Guillotine T
deriving DecidableEq

/-- `Guillotine::take`: `mem::replace(self, Dead)`.  The first component is
the returned prior state, the second is the state left behind in `self`. -/
def Guillotine.take {T : Type} (g : Guillotine T) : Guillotine T × Guillotine T :=
  (g, Guillotine.Dead)

/-- `ArrayIter<L, T>` from `src/array.rs`: the iterator's owned block behind
a `Guillotine`, plus the cursor `pos`.  The memory of the owned
`Array<L, T>` is its element list. -/
structure ArrayIter (T : Type) : Type where
  data : Guillotine (List T)
  pos : Nat
deriving DecidableEq

/-- `Iterator::next` for `ArrayIter`: `self.data.as_ref().unwrap_unchecked()`
is undefined behavior when the block is `Dead` (outer `none`); otherwise, if
`pos < data.len()` the element at `pos` is `ptr::read` out and `pos` is
incremented, else the iterator reports end of sequence. -/
def ArrayIter.next {T : Type} : ArrayIter T → Option (Option T × ArrayIter T)
  | ⟨Guillotine.Alive arr, pos⟩ =>
    if h : pos < arr.length then
      some (some (arr.get ⟨pos, h⟩), ⟨Guillotine.Alive arr, pos + 1⟩)
    else
      some (none, ⟨Guillotine.Alive arr, pos⟩)
  | ⟨Guillotine.Dead, _⟩ => none

/-- `ArrayIter::size_hint`: `(L::reify(), Some(L::reify()))` — computed from
the type-level length alone, ignoring the iterator's state. -/
def ArrayIter.sizeHint {T : Type} (L : TNat) (_it : ArrayIter T) :
    Nat × Option Nat :=
  (L.reify, some L.reify)

/-- `Drop for ArrayIter`, as the multiset (list) of element positions whose
destructor runs during teardown.  The body moves the block out with
`self.data.take().unwrap_unchecked()` (undefined behavior if already `Dead`,
hence `none`), runs `ptr::drop_in_place(&mut data[i])` for
`i in self.pos..data.len()`, and then the local `data: Array<L, T>` itself
goes out of scope: there is no `mem::forget(data)`, so Rust's drop glue for
the storage tree destructs every element field again, in memory order. -/
def ArrayIter.dropDestructs {T : Type} : ArrayIter T → Option (List Nat)
  | ⟨Guillotine.Alive arr, pos⟩ =>
    some (List.range' pos (arr.length - pos) ++ List.range arr.length)
  | ⟨Guillotine.Dead, _⟩ => none

/-- `IntoIterator for Array<L, T>`: moves the whole block into the iterator
with the tag `Alive` and the cursor at 0. -/
def intoIter {T : Type} (mem : List T) : ArrayIter T :=
  ⟨Guillotine.Alive mem, 0⟩

/-- Runs `next` a given number of times, collecting each call's result in
order together with the final iterator state (`none` if any call hits
undefined behavior). -/
def ArrayIter.runN {T : Type} : Nat → ArrayIter T → Option (List (Option T) × ArrayIter T)
  | 0, it => some ([], it)
  | k + 1, it =>
    it.next.bind fun p =>
      (ArrayIter.runN k p.2).map fun q => (p.1 :: q.1, q.2)

/-- The write loop of `FromSizedIterator::from_sized_iter`: for each yielded
value `v` with enumeration index `i`, `ptr::write(&mut array[i], v)`.  The
slot store starts uninitialized (`none`); `array[i]` is bounds-checked slice
indexing, so an index past the length panics (`none`). -/
def writeLoop {T : Type} (slots : List (Option T)) (i : Nat) :
    List T → Option (List (Option T))
  | [] => some slots
  | v :: rest =>
    if i < slots.length then writeLoop (slots.set i (some v)) (i + 1) rest
    else none

/-- Reading back the finished container: every slot must have been written
(an uninitialized slot read is undefined behavior, hence `none`). -/
def assumeInit {T : Type} : List (Option T) → Option (List T)
  | [] => some []
  | some x :: r => (assumeInit r).map fun xs => x :: xs
  | none :: _ => none

/-- `FromSizedIterator::from_sized_iter` for `Array<L, T>`: start from an
uninitialized block of `L::reify()` slots, write the iterator's values at
their enumeration indices, and return the resulting container. -/
def fromSizedIter {T : Type} (L : TNat) (vs : List T) : Option (List T) :=
  (writeLoop (List.replicate L.reify (none : Option T)) 0 vs).bind assumeInit

theorem readArrayAt_prefix {T : Type} (vs rest : List T) :
    readArrayAt (vs ++ rest) 0 vs.length = some vs := by
  unfold readArrayAt
  rw [if_pos (by simp)]
  simp [List.take_left]

theorem readElem_concat {T : Type} (vs : List T) (v : T) :
    readElem (vs ++ [v]) vs.length = some v := by
  unfold readElem
  rw [dif_pos (by simp)]
  simp

theorem runN_alive {T : Type} (arr : List T) :
    ∀ (k p : Nat), p ≤ arr.length →
      ArrayIter.runN k (⟨Guillotine.Alive arr, p⟩ : ArrayIter T) =
        some (((arr.drop p).map some).take k ++
                List.replicate (k - (arr.length - p)) (none : Option T),
              ⟨Guillotine.Alive arr, min (p + k) arr.length⟩) := by
  intro k
  induction k with
  | zero =>
    intro p hp
    simp [ArrayIter.runN, Nat.min_eq_left hp]
  | succ k ih =>
    intro p hp
    have hstep : ArrayIter.runN (k + 1) (⟨Guillotine.Alive arr, p⟩ : ArrayIter T) =
        (ArrayIter.next (⟨Guillotine.Alive arr, p⟩ : ArrayIter T)).bind fun q =>
          (ArrayIter.runN k q.2).map fun r => (q.1 :: r.1, r.2) := rfl
    by_cases h : p < arr.length
    · have hnext : ArrayIter.next (⟨Guillotine.Alive arr, p⟩ : ArrayIter T) =
          some (some (arr.get ⟨p, h⟩), ⟨Guillotine.Alive arr, p + 1⟩) := by
        simp [ArrayIter.next, h]
      rw [hstep, hnext, Option.some_bind, ih (p + 1) (by omega), Option.map_some']
      have hdrop : arr.drop p = arr.get ⟨p, h⟩ :: arr.drop (p + 1) := by
        rw [List.drop_eq_getElem_cons h]
        simp
      have hrep : (k + 1) - (arr.length - p) = k - (arr.length - (p + 1)) := by
        omega
      have hmin : min (p + 1 + k) arr.length = min (p + (k + 1)) arr.length := by
        omega
      rw [hdrop]
      simp only [List.map_cons, List.take_succ_cons, List.cons_append, hrep, hmin]
    · have hpe : p = arr.length := by omega
      subst hpe
      have hnext : ArrayIter.next
            (⟨Guillotine.Alive arr, arr.length⟩ : ArrayIter T) =
          some (none, ⟨Guillotine.Alive arr, arr.length⟩) := by
        simp [ArrayIter.next]
      rw [hstep, hnext, Option.some_bind, ih arr.length le_rfl, Option.map_some']
      simp [List.drop_length, List.replicate_succ, Nat.min_eq_right (by omega : arr.length ≤ arr.length + k),
        Nat.min_eq_right (by omega : arr.length ≤ arr.length + (k + 1))]

theorem set_map_some_append {T : Type} (pre : List T) (v : T) (m : Nat) :
    (pre.map some ++ List.replicate (m + 1) (none : Option T)).set pre.length
        (some v) =
      (pre ++ [v]).map some ++ List.replicate m none := by
  simp [List.replicate_succ]

theorem writeLoop_fills {T : Type} (vs : List T) :
    ∀ pre : List T,
      writeLoop (pre.map some ++ List.replicate vs.length (none : Option T))
        pre.length vs = some ((pre ++ vs).map some) := by
  induction vs with
  | nil => intro pre; simp [writeLoop]
  | cons v rest ih =>
    intro pre
    simp only [writeLoop, List.length_cons]
    rw [if_pos (by simp)]
    rw [set_map_some_append]
    rw [show pre.length + 1 = (pre ++ [v]).length by simp]
    rw [ih (pre ++ [v])]
    simp

theorem assumeInit_map_some {T : Type} (vs : List T) :
    assumeInit (vs.map some) = some vs := by
  induction vs with
  | nil => rfl
  | cons v rest ih => simp [assumeInit, ih]

/-- A concrete two-element storage tree (the layout of `Array<U2, Nat>`
holding `[5, 7]`), used to instantiate the slice-view theorem. -/
def sampleReify2 : Reify Nat (TNat.two TNat.term) :=
  Reify.twoNode 5 7 Reify.termNode Reify.termNode Reify.termNode

/-- C1: the claim says `split_first` on a container built from
`[v0, ..., v(N-1)]` returns `(v0, container of [v1, ..., v(N-1)])` for every
N ≥ 1, including N = 3 and N = 8.  The code casts the base pointer to the
`(N-1)`-element tail array type before applying `.offset(1)`, so the tail is
read at element offset `N-1` instead of 1 — an out-of-bounds read (undefined
behavior, `none` in the model) whenever N ≥ 3.  Only N = 1 and N = 2, where
the two offsets coincide, behave as claimed: here N = 2 returns
`(42, [84])`, while N = 3 (`[42, 84, 126]`) and the spec's own N = 8 example
`[42, ..., 336]` read out of bounds. -/
theorem splitFirst_out_of_bounds :
    splitFirst (TNat.two TNat.term) ([42, 84] : List Nat) = some (42, [84]) ∧
    splitFirst (TNat.zero (TNat.one TNat.term)) ([42, 84, 126] : List Nat) =
      none ∧
    splitFirst (TNat.two (TNat.two TNat.term))
      ([42, 84, 126, 168, 210, 252, 294, 336] : List Nat) = none := by
  decide

/-- C2: the claim says an iterator dropped after yielding k elements
destructs exactly the elements at positions `[k, N)` once each and never
touches `[0, k)`.  In `Drop for ArrayIter` the block is moved out of the
`Guillotine` into the local `data`, positions `[pos, len)` are dropped in
place, and then `data` itself goes out of scope with no `mem::forget`, so
the drop glue destructs all N elements again.  For the container `[42, 84]`
dropped after one `next` (k = 1), the destructed positions are `[1, 0, 1]`:
position 1 is destructed twice and the already-yielded position 0 once, so
the total destructor count is 1 + 3 = 4 ≠ N = 2. -/
theorem dropIter_destructs_twice :
    (ArrayIter.runN 1 (intoIter ([42, 84] : List Nat))).map
        (fun q => q.2.dropDestructs) = some (some [1, 0, 1]) ∧
    ([1, 0, 1] : List Nat).count 1 = 2 ∧
    ([1, 0, 1] : List Nat).count 0 = 1 := by
  decide

/-- C3: `split_last` on a container built from `vs ++ [v]` (any length ≥ 1,
in whichever of the three leading-digit shapes the length has) returns the
last element `v` together with the container of the preceding elements
`vs`, whose length is one less. -/
theorem splitLast_spec {T : Type} (L : TNat) (vs : List T) (v : T)
    (h : (vs ++ [v]).length = L.reify) :
    splitLast L (vs ++ [v]) = some (v, vs) := by
  have hlen : vs.length + 1 = L.reify := by simpa using h
  cases L with
  | term => simp [TNat.reify] at hlen
  | zero l =>
    have hl : 1 ≤ l.reify := by
      simp only [TNat.reify] at hlen; omega
    have htwo : (TNat.two l.pred).reify = vs.length := by
      simp only [TNat.reify, TNat.reify_pred l hl]
      simp only [TNat.reify] at hlen
      omega
    have hidx : (TNat.zero l).reify - 1 = vs.length := by
      simp only [TNat.reify] at hlen ⊢
      omega
    simp only [splitLast, htwo, hidx, readArrayAt_prefix, readElem_concat,
      Option.some_bind, Option.map_some']
  | one l =>
    have htr : l.triple.reify = vs.length := by
      simp only [TNat.reify_triple]
      simp only [TNat.reify] at hlen
      omega
    have hidx : (TNat.one l).reify - 1 = vs.length := by
      simp only [TNat.reify] at hlen ⊢
      omega
    simp only [splitLast, htr, hidx, readArrayAt_prefix, readElem_concat,
      Option.some_bind, Option.map_some']
  | two l =>
    have hone : (TNat.one l).reify = vs.length := by
      simp only [TNat.reify] at hlen ⊢
      omega
    have hidx : (TNat.two l).reify - 1 = vs.length := by
      simp only [TNat.reify] at hlen ⊢
      omega
    simp only [splitLast, hone, hidx, readArrayAt_prefix, readElem_concat,
      Option.some_bind, Option.map_some']

/-- Witness for C3: the spec's own example, N = 8 (`Two<Two<Term>>`) built
from `[42, 84, 126, 168, 210, 252, 294, 336]`, split into `336` and the
7-element container `[42, ..., 294]`. -/
theorem splitLast_spec_witness :
    splitLast (TNat.two (TNat.two TNat.term))
      ([42, 84, 126, 168, 210, 252, 294, 336] : List Nat) =
      some (336, [42, 84, 126, 168, 210, 252, 294]) :=
  splitLast_spec (TNat.two (TNat.two TNat.term))
    [42, 84, 126, 168, 210, 252, 294] 336 (by decide)

/-- C4: for every supported type-level length `L` with resolved value
`N = L.reify` and element type `T`, the reified storage tree holds exactly
`N` elements, and its `repr(C)` byte size is exactly `N * sizeof(T)` (no
extra fields or padding beyond `T`'s own alignment). -/
theorem storage_layout_law (T : Type) (szT : Nat) (L : TNat) :
    (∀ s : Reify T L, s.flatten.length = L.reify) ∧
    sizeofReify szT L = L.reify * szT :=
  ⟨fun s => Reify.length_flatten s, sizeofReify_eq szT L⟩

/-- C5: iterating a container built from `[v0, ..., v(N-1)]` with repeated
`next` calls yields exactly the N elements in index order, then reports end
of sequence forever: the first k results are the first k of
`[some v0, ..., some v(N-1)]` padded with `none` once the elements run out;
and each single `next` at cursor `p < N` returns the element at `p` and
increments the cursor. -/
theorem iterator_next_spec {T : Type} (mem : List T) (k : Nat) :
    (ArrayIter.runN k (intoIter mem)).map Prod.fst =
      some ((mem.map some).take k ++
            List.replicate (k - mem.length) (none : Option T)) ∧
    ∀ (p : Nat) (h : p < mem.length),
      ArrayIter.next (⟨Guillotine.Alive mem, p⟩ : ArrayIter T) =
        some (some (mem.get ⟨p, h⟩), ⟨Guillotine.Alive mem, p + 1⟩) := by
  constructor
  · show (ArrayIter.runN k
        (⟨Guillotine.Alive mem, 0⟩ : ArrayIter T)).map Prod.fst = _
    rw [runN_alive mem k 0 (Nat.zero_le _)]
    simp
  · intro p h
    simp [ArrayIter.next, h]

/-- Witness for C5: the first `next` on the container `[5, 9]` yields `5`
and moves the cursor to 1. -/
theorem iterator_next_spec_witness :
    ArrayIter.next (⟨Guillotine.Alive ([5, 9] : List Nat), 0⟩ : ArrayIter Nat) =
      some (some 5, ⟨Guillotine.Alive [5, 9], 1⟩) :=
  (iterator_next_spec ([5, 9] : List Nat) 0).2 0 (by decide)

/-- C6: the claim says `size_hint` reports exactly `length - pos` remaining
elements at every cursor position.  The code returns
`(L::reify(), Some(L::reify()))` unconditionally, ignoring `pos`: after one
`next` on the container `[42, 84]` the cursor is 1 but the hint is still
`(2, some 2)`, not `(2 - 1, some (2 - 1))`. -/
theorem sizeHint_ignores_pos :
    (ArrayIter.runN 1 (intoIter ([42, 84] : List Nat))).map
        (fun q => (q.2.pos, ArrayIter.sizeHint (TNat.two TNat.term) q.2)) =
      some (1, (2, some 2)) ∧
    ((2, some 2) : Nat × Option Nat) ≠ (2 - 1, some (2 - 1)) := by
  decide

/-- C7: the claim says N successive `split_first` calls on a length-N
container reproduce the original sequence.  This inherits the `split_first`
tail-offset bug: for N = 2 the round trip indeed returns `[42, 84]`, but for
N = 3 the very first split reads out of bounds (undefined behavior, `none`
in the model), so the collected heads cannot reproduce `[42, 84, 126]`. -/
theorem splitIterate_out_of_bounds :
    splitIterate 2 (TNat.two TNat.term) ([42, 84] : List Nat) =
      some [42, 84] ∧
    splitIterate 3 (TNat.zero (TNat.one TNat.term)) ([42, 84, 126] : List Nat) =
      none := by
  decide

/-- C8: `Guillotine::take` returns the prior state and leaves the tag
`Dead`, so a second `take` after a first returns `Dead`: the owned block can
be extracted for teardown at most once no matter how many times `take` is
invoked. -/
theorem guillotine_take_spec (T : Type) (g : Guillotine T) :
    g.take = (g, Guillotine.Dead) ∧ g.take.2.take.1 = Guillotine.Dead :=
  ⟨rfl, rfl⟩

/-- C9: the deref slice view of a container with type-level length `L` has
exactly `L.reify` elements; indexing it at `i < L.reify` returns the stored
element (the `i`-th element of the storage) without failure, and indexing at
`i ≥ L.reify` fails fast via the slice bound check (`none`, the panic),
producing no partial state (indexing is a pure read of the view). -/
theorem deref_index_spec (T : Type) (L : TNat) (a : Reify T L) :
    (derefSlice a).length = L.reify ∧
    (∀ i, i < L.reify → sliceIndex (derefSlice a) i = a.flatten[i]?) ∧
    (∀ i, i < L.reify → (sliceIndex (derefSlice a) i).isSome = true) ∧
    (∀ i, L.reify ≤ i → sliceIndex (derefSlice a) i = none) := by
  have hfl : a.flatten.length = L.reify := Reify.length_flatten a
  have hds : derefSlice a = a.flatten := by
    rw [derefSlice, ← hfl, List.take_length]
  refine ⟨?_, ?_, ?_, ?_⟩
  · rw [hds, hfl]
  · intro i _
    rw [hds]
    rfl
  · intro i hi
    rw [hds]
    simp only [sliceIndex]
    rw [List.getElem?_eq_getElem (by omega : i < a.flatten.length)]
    rfl
  · intro i hi
    rw [hds]
    simp only [sliceIndex]
    exact List.getElem?_eq_none (by omega : a.flatten.length ≤ i)

/-- Witness for C9: the two-element container `[5, 7]` — index 0 reads the
stored element `5`, index 2 hits the bound check. -/
theorem deref_index_spec_witness :
    sliceIndex (derefSlice sampleReify2) 0 = some 5 ∧
    sliceIndex (derefSlice sampleReify2) 2 = none := by
  have h := deref_index_spec Nat (TNat.two TNat.term) sampleReify2
  exact ⟨(h.2.1 0 (by decide)).trans (by decide), h.2.2.2 2 (by decide)⟩

/-- C10: `from_sized_iter` over a sized iterator of declared length `L` that
yields exactly the `L.reify` values `vs` writes every slot exactly once at
its enumeration index and produces the container whose elements are `vs`. -/
theorem fromSizedIter_spec {T : Type} (L : TNat) (vs : List T)
    (h : vs.length = L.reify) :
    fromSizedIter L vs = some vs := by
  unfold fromSizedIter
  rw [← h]
  have h0 := writeLoop_fills vs []
  simp only [List.map_nil, List.nil_append, List.length_nil] at h0
  rw [h0, Option.some_bind, assumeInit_map_some]

/-- Witness for C10: collecting the two-element sized iterator yielding
`[42, 84]` into `Array<U2, Nat>` produces the container `[42, 84]`. -/
theorem fromSizedIter_spec_witness :
    fromSizedIter (TNat.two TNat.term) ([42, 84] : List Nat) =
      some [42, 84] :=
  fromSizedIter_spec (TNat.two TNat.term) [42, 84] (by decide)

end TllArray
